import Mathlib

/-!
Verification of the `dbqueue` database-backed task queue.

The definitions below are a shallow embedding of the Python sources:
  * `src/dbqueue/models.py` (`Job`, `JobArg`, `JobKWArg`, `JobResult`,
    `JobManager.simple_enqueue_job`, `Job.execute`, `Job.get_result`,
    `Job.path_to_function`),
  * `src/dbqueue/runner/jobs.py` (`JobRunner._get_job` and the inner
    claim-and-execute step of `JobRunner.run`),
  * `src/dbqueue/management/commands/run_queue.py` (start-up validation of
    `Command.handle`).

Timestamps and durations are modelled as natural numbers (a fixed tick,
e.g. microseconds).  Opaque JSON argument values are modelled by the
inductive type `Value`.  Handlers are Lean functions returning either a
value or, on a raised exception, the pair of the exception's string form
and its formatted traceback.  Dynamic resolution of `func_name` through
`importlib` is modelled by an environment mapping each dotted path to the
outcome the Python interpreter would produce for it.
-/

namespace DBQueue

/-- Opaque structured (JSON) argument and result values, as stored in the
`JSONField` columns of `JobArg`, `JobKWArg` and `JobResult`. -/
inductive Value where
  | null
  | bool (b : Bool)
  | int (n : Int)
  | str (s : String)
  | arr (xs : List Value)
  | obj (fields : List (String × Value))

/-- One row of the `JobResult` model (`models.py`, class `JobResult`):
outcome of one attempt.  `permanent` indicates whether further attempts
should happen; Django's empty-string column default is used for
`exception` and `traceback` when `Job.execute` does not assign them. -/
structure JobResult where
  success : Bool
  started_at : Nat
  finished_at : Nat
  exception : String
  traceback : String
  result : Option Value
  permanent : Bool

/-- A handler: receives the positional and keyword arguments, and either
returns a value or raises; a raise is modelled as `Except.error` carrying
`str(exc)` and the formatted traceback text. -/
def Handler := List Value → List (String × Value) → Except (String × String) Value

/-- Outcome of the dynamic lookup performed by `Job.path_to_function`
(`models.py` lines 244-258) for one dotted path:
  * `notFound`: `importlib.import_module` or `getattr` raises
    (`ModuleNotFoundError` / `AttributeError`) with message `msg`;
  * `uncallable`: an object is located but `callable(f)` is false, so
    `Job._callable_or_error` raises `Uncallable` whose string form is `msg`;
  * `found`: a callable is located. -/
inductive ResolveOutcome where
  | notFound (msg : String)
  | uncallable (msg : String)
  | found (h : Handler)

/-- The Python import environment: what `path_to_function` finds at each
dotted path. -/
def Env := String → ResolveOutcome

/-- One row of the `Job` model together with its related rows.  Fields
`func_name` through `finished` are the columns declared in `models.py`
lines 83-114.  `args`, `kwargs` and `results` inline the related
`JobArg` (as `(position, arg)`), `JobKWArg` (as `(param_name, arg)`, in
row order) and `JobResult` rows.

Modelled from the spec: the columns `canceled` and `final_result` are read
by `JobRunner._get_job` (`runner/jobs.py` line 86) and by `admin.py`, but
are not declared in `src/dbqueue/models.py`; they are modelled here from
the spec's data model (§3): `canceled` suppresses dispatch, `final_result`
optionally references a JobResult row (here by index into `results`). -/
structure Job where
  id : Nat
  func_name : String
  queued_at : Nat
  priority : Nat
  delay_until : Option Nat
  error_delay_until : Option Nat
  max_retries : Nat
  base_retry_delay : Nat
  retry_multiplier : Nat
  finished : Bool
  canceled : Bool
  final_result : Option Nat
  args : List (Nat × Value)
  kwargs : List (String × Value)
  results : List JobResult

/-- Embeds `Job.get_args` (`models.py` lines 130-140): the related
`JobArg` rows ordered by `position`, projected to their values. -/
def Job.get_args (j : Job) : List Value :=
  (j.args.insertionSort (fun a b => a.1 ≤ b.1)).map (·.2)

/-- Python dict assignment `out[param_name] = arg`: an existing key is
overwritten in place, a new key is appended. -/
def dictInsert (m : List (String × Value)) (k : String) (v : Value) :
    List (String × Value) :=
  if m.any (fun p => p.1 == k) then
    m.map (fun p => if p.1 == k then (k, v) else p)
  else
    m ++ [(k, v)]

/-- Embeds `Job.get_kwargs` (`models.py` lines 142-152): builds a dict
from the related `JobKWArg` rows in row order. -/
def Job.get_kwargs (j : Job) : List (String × Value) :=
  j.kwargs.foldl (fun m p => dictInsert m p.1 p.2) []

/-- The two exceptions that can escape `Job.path_to_function`:
a lookup failure (`ModuleNotFoundError` / `AttributeError`, which
`Job.execute` does not catch) or `Uncallable` (which it catches). -/
inductive GetCallableError where
  | lookupFailed (msg : String)
  | uncallableFn (msg : String)

/-- Embeds `Job.path_to_function` (`models.py` lines 244-258) followed by
`Job._callable_or_error`: the import/getattr outcome is supplied by the
environment. -/
def path_to_function (env : Env) (path : String) :
    Except GetCallableError Handler :=
  match env path with
  | .notFound msg => .error (.lookupFailed msg)
  | .uncallable msg => .error (.uncallableFn msg)
  | .found h => .ok h

/-- Embeds `Job.execute` (`models.py` lines 154-218).  The result is the
updated job (its new `JobResult` row appended to `results`), or
`Except.error msg` when an exception escapes `execute` uncaught — which
happens exactly when the lookup of `func_name` fails, since only
`Uncallable` is caught around `get_partial`.  A single clock reading
`now` stands for the (near-identical) successive `timezone.now()` calls. -/
def Job.execute (env : Env) (now : Nat) (j : Job) : Except String Job :=
  match path_to_function env j.func_name with
  | .error (.uncallableFn msg) =>
      -- lines 163-181: Uncallable is caught; never retry, no traceback
      .ok { j with
        finished := true,
        results := j.results ++ [{
          success := false, started_at := now, finished_at := now,
          exception := msg, traceback := "", result := none,
          permanent := true }] }
  | .error (.lookupFailed msg) =>
      -- import/attribute errors are not caught by execute and propagate
      .error msg
  | .ok h =>
    match h j.get_args j.get_kwargs with
    | .ok val =>
        -- lines 184-194: success path
        .ok { j with
          finished := true,
          results := j.results ++ [{
            success := true, started_at := now, finished_at := now,
            exception := "", traceback := "", result := some val,
            permanent := true }] }
    | .error (excMsg, tb) =>
        -- lines 196-218: failure path; total_try_count is the number of
        -- JobResult rows BEFORE the new row is saved
        let total_try_count := j.results.length
        .ok { j with
          error_delay_until :=
            some (now + j.base_retry_delay * j.retry_multiplier * total_try_count),
          results := j.results ++ [{
            success := false, started_at := now, finished_at := now,
            exception := excMsg, traceback := tb, result := none,
            permanent := total_try_count ≥ j.max_retries }] }

/-- Errors that `Job.get_result` can raise: `Unfinished`,
`PermanentFailure(msg)`, or Django's `MultipleObjectsReturned` escaping
from `results.get(permanent=True)` when more than one row matches. -/
inductive JobError where
  | unfinished
  | permanentFailure (msg : String)
  | multipleResults

/-- Embeds `Job.get_result` (`models.py` lines 220-234):
`results.get(permanent=True)` succeeds only when exactly one permanent
row exists; a failing permanent result raises `PermanentFailure` with its
exception text, a successful one returns its stored value. -/
def Job.get_result (j : Job) : Except JobError (Option Value) :=
  match j.results.filter (·.permanent) with
  | [] => .error .unfinished
  | [r] =>
      if r.success then .ok r.result
      else .error (.permanentFailure r.exception)
  | _ :: _ :: _ => .error .multipleResults

/-- A Python function object passed to `simple_enqueue_job`: it is
callable (so `Job._callable_or_error` passes) and `function_to_path`
serializes it to `path`. -/
structure Callable where
  path : String
  fn : Handler

/-- Result of one `simple_enqueue_job` call: the updated store, the
returned `Job`, and the list of pub/sub channel messages the operation
sent (the code in `models.py` lines 52-80 performs only `save()` calls
inside `transaction.atomic()`, so this list is empty). -/
structure EnqueueOutcome where
  store : List Job
  job : Job
  sent : List String

/-- Embeds `JobManager.simple_enqueue_job` (`models.py` lines 52-80):
atomically create one `Job` row with all default column values, one
`JobArg` row per positional argument (`position = i` for the `i`-th), and
one `JobKWArg` row per keyword argument, then return the job. -/
def simple_enqueue_job (store : List Job) (next_id : Nat) (now : Nat)
    (func : Callable) (args : List Value) (kwargs : List (String × Value)) :
    EnqueueOutcome :=
  let job : Job := {
    id := next_id
    func_name := func.path
    queued_at := now
    priority := 1000
    delay_until := none
    error_delay_until := none
    max_retries := 0
    base_retry_delay := 1
    retry_multiplier := 2
    finished := false
    canceled := false
    final_result := none
    args := args.enum
    kwargs := kwargs
    results := [] }
  { store := store ++ [job], job := job, sent := [] }

/-- Eligibility filter of `JobRunner._get_job` (`runner/jobs.py` lines
86-95): no final result, not canceled, `delay_until` null or ≤ now,
`error_delay_until` null or ≤ now. -/
def eligible (now : Nat) (j : Job) : Bool :=
  j.final_result.isNone && !j.canceled
  && (match j.delay_until with | none => true | some t => decide (t ≤ now))
  && (match j.error_delay_until with | none => true | some t => decide (t ≤ now))

/-- Strict ascending order on a nullable timestamp column in Postgres
(`ASC NULLS LAST`): a null sorts after every value. -/
def optLT : Option Nat → Option Nat → Bool
  | some a, some b => decide (a < b)
  | some _, none => true
  | none, _ => false

/-- Reflexive ascending order on a nullable timestamp column in Postgres
(`ASC NULLS LAST`). -/
def optLE : Option Nat → Option Nat → Bool
  | _, none => true
  | none, some _ => false
  | some a, some b => decide (a ≤ b)

/-- Lexicographic comparison implementing
`order_by("priority", "delay_until", "error_delay_until")`
(`runner/jobs.py` line 99): priority ascending first, then each nullable
timestamp ascending with nulls last. -/
def jobOrderLE (a b : Job) : Bool :=
  decide (a.priority < b.priority) ||
  (decide (a.priority = b.priority) &&
    (optLT a.delay_until b.delay_until ||
      (decide (a.delay_until = b.delay_until) &&
        optLE a.error_delay_until b.error_delay_until)))

/-- Scan of the ordered query result keeping the row that sorts first
(`.first()` on the ordered queryset): the running minimum under
`jobOrderLE`, earlier rows winning ties. -/
def selectMinFrom (m : Job) : List Job → Job
  | [] => m
  | j :: rest => selectMinFrom (if jobOrderLE m j then m else j) rest

/-- First row of the ordered list, or `none` when the list is empty. -/
def selectMin : List Job → Option Job
  | [] => none
  | j :: rest => some (selectMinFrom j rest)

/-- Embeds `JobRunner._get_job` (`runner/jobs.py` lines 83-102): filter
the store to the eligible jobs, order by
`(priority, delay_until, error_delay_until)` and return the first row,
or `none` when no job matches. -/
def getJob (now : Nat) (store : List Job) : Option Job :=
  selectMin (store.filter (eligible now))

/-- One iteration of the inner loop of `JobRunner.run` (`runner/jobs.py`
lines 41-52): claim a job with `_get_job`; if none, the store is
unchanged; otherwise execute it and write the updated row back.  An
exception escaping `Job.execute` propagates. -/
def runnerStep (env : Env) (now : Nat) (store : List Job) :
    Except String (List Job) :=
  match getJob now store with
  | none => .ok store
  | some j =>
      match j.execute env now with
      | .error e => .error e
      | .ok j' => .ok (store.map fun x => if x.id == j.id then j' else x)

/-- Engines for which `run_queue` enables async notifications
(`run_queue.py` lines 19-23). -/
def NOTIFY_ENGINES : List String :=
  ["django.contrib.gis.db.backends.postgis",
   "django.db.backends.postgresql",
   "django.db.backends.postgresql_psycopg2"]

/-- Embeds the start-up validation of `Command.handle`
(`run_queue.py` lines 53-82): reject when `job_runners < 1`, or when the
engine does not support notifications and `rescan_period` is zero
(Python's `not rescan_period` on an `int`). -/
def runQueueValidate (job_runners : Int) (engine : String)
    (rescan_period : Int) : Except String Unit :=
  if job_runners < 1 then
    .error "Must have at least one job runner"
  else
    let execute_async := decide (engine ∈ NOTIFY_ENGINES)
    if !execute_async && rescan_period == 0 then
      .error "Either async notifications or a rescan period must be enabled"
    else
      .ok ()

/-- Back-off formula as the specification states it (§4.3):
`back_off(n) = retry_delay ^ n`, exponentiation of the duration by the
attempt count.  Stated from the spec's words for comparison with the
schedule `Job.execute` actually computes. -/
def specBackOff (retry_delay n : Nat) : Nat := retry_delay ^ n

/-! Concrete fixtures used to evaluate the definitions on closed inputs. -/

/-- A handler that raises `RuntimeError("boom")` on every invocation. -/
def failHandler : Handler := fun _ _ => .error ("boom", "tb0")

/-- An environment in which every dotted path resolves to `failHandler`. -/
def envBoom : Env := fun _ => .found failHandler

/-- An environment in which importing any path raises
`ModuleNotFoundError` — the outcome for `func_name = "does.not.exist"`. -/
def envMissing : Env := fun _ => .notFound "No module named 'does.not'"

/-- An environment in which every path locates a non-callable object, so
`Job._callable_or_error` raises `Uncallable`. -/
def envUncallable : Env := fun _ =>
  .uncallable "Object of type 'int'' is not callable"

/-- The echo handler of `test_callables.test_func`: returns its own
positional and keyword arguments. -/
def echoHandler : Handler := fun a kw =>
  .ok (.obj [("args", .arr a), ("kwargs", .obj kw)])

/-- An environment in which every dotted path resolves to `echoHandler`. -/
def envEcho : Env := fun _ => .found echoHandler

/-- A job row with all `models.py` column defaults and no related rows. -/
def baseJob : Job := {
  id := 0
  func_name := "app.tasks.work"
  queued_at := 0
  priority := 1000
  delay_until := none
  error_delay_until := none
  max_retries := 0
  base_retry_delay := 1
  retry_multiplier := 2
  finished := false
  canceled := false
  final_result := none
  args := []
  kwargs := []
  results := [] }

/-- A canceled pending job. -/
def jobC : Job := { baseJob with id := 1, canceled := true, priority := 1 }

/-- An eligible pending job. -/
def jobE : Job := { baseJob with id := 2, priority := 5 }

/-- A two-job store: one canceled job and one eligible job. -/
def storeW : List Job := [jobC, jobE]

/-- A pending job with retries remaining (`max_retries = 5`). -/
def jobF : Job := { baseJob with max_retries := 5 }

/-- A permanent failing attempt row. -/
def resFail : JobResult := {
  success := false, started_at := 0, finished_at := 1,
  exception := "boom", traceback := "tb0", result := none,
  permanent := true }

/-- A non-permanent failing attempt row. -/
def resTry : JobResult := {
  success := false, started_at := 0, finished_at := 1,
  exception := "boom", traceback := "tb0", result := none,
  permanent := false }

/-- A job whose last attempt is its unique permanent (failing) result. -/
def jobP : Job := { baseJob with results := [resTry, resFail] }

/-! Properties of the row ordering used by the claim query. -/

lemma optLE_refl (o : Option Nat) : optLE o o = true := by
  cases o <;> simp [optLE]

lemma optLE_total (o₁ o₂ : Option Nat) :
    optLE o₁ o₂ = true ∨ optLE o₂ o₁ = true := by
  cases o₁ <;> cases o₂ <;> simp [optLE] <;> omega

lemma optLE_trans {o₁ o₂ o₃ : Option Nat} (h₁ : optLE o₁ o₂ = true)
    (h₂ : optLE o₂ o₃ = true) : optLE o₁ o₃ = true := by
  cases o₁ <;> cases o₂ <;> cases o₃ <;> simp_all [optLE] <;> omega

lemma optLT_trichotomy (o₁ o₂ : Option Nat) :
    optLT o₁ o₂ = true ∨ o₁ = o₂ ∨ optLT o₂ o₁ = true := by
  cases o₁ <;> cases o₂ <;> simp [optLT] <;> omega

lemma optLT_trans {o₁ o₂ o₃ : Option Nat} (h₁ : optLT o₁ o₂ = true)
    (h₂ : optLT o₂ o₃ = true) : optLT o₁ o₃ = true := by
  cases o₁ <;> cases o₂ <;> cases o₃ <;> simp_all [optLT] <;> omega

lemma jobOrderLE_iff (a b : Job) : jobOrderLE a b = true ↔
    (a.priority < b.priority ∨
      (a.priority = b.priority ∧
        (optLT a.delay_until b.delay_until = true ∨
          (a.delay_until = b.delay_until ∧
            optLE a.error_delay_until b.error_delay_until = true)))) := by
  simp [jobOrderLE]

lemma jobOrderLE_refl (a : Job) : jobOrderLE a a = true := by
  rw [jobOrderLE_iff]
  exact .inr ⟨rfl, .inr ⟨rfl, optLE_refl _⟩⟩

lemma jobOrderLE_total (a b : Job) :
    jobOrderLE a b = true ∨ jobOrderLE b a = true := by
  rw [jobOrderLE_iff, jobOrderLE_iff]
  rcases Nat.lt_trichotomy a.priority b.priority with h | h | h
  · exact .inl (.inl h)
  · rcases optLT_trichotomy a.delay_until b.delay_until with hd | hd | hd
    · exact .inl (.inr ⟨h, .inl hd⟩)
    · rcases optLE_total a.error_delay_until b.error_delay_until with he | he
      · exact .inl (.inr ⟨h, .inr ⟨hd, he⟩⟩)
      · exact .inr (.inr ⟨h.symm, .inr ⟨hd.symm, he⟩⟩)
    · exact .inr (.inr ⟨h.symm, .inl hd⟩)
  · exact .inr (.inl h)

lemma jobOrderLE_trans {a b c : Job} (h₁ : jobOrderLE a b = true)
    (h₂ : jobOrderLE b c = true) : jobOrderLE a c = true := by
  rw [jobOrderLE_iff] at h₁ h₂ ⊢
  rcases h₁ with h₁ | ⟨hp₁, h₁⟩
  · rcases h₂ with h₂ | ⟨hp₂, _⟩
    · exact .inl (h₁.trans h₂)
    · exact .inl (hp₂ ▸ h₁)
  · rcases h₂ with h₂ | ⟨hp₂, h₂⟩
    · exact .inl (hp₁ ▸ h₂)
    · refine .inr ⟨hp₁.trans hp₂, ?_⟩
      rcases h₁ with h₁ | ⟨hd₁, h₁⟩
      · rcases h₂ with h₂ | ⟨hd₂, _⟩
        · exact .inl (optLT_trans h₁ h₂)
        · exact .inl (hd₂ ▸ h₁)
      · rcases h₂ with h₂ | ⟨hd₂, h₂⟩
        · exact .inl (hd₁ ▸ h₂)
        · exact .inr ⟨hd₁.trans hd₂, optLE_trans h₁ h₂⟩

lemma selectMinFrom_mem (l : List Job) : ∀ m : Job,
    selectMinFrom m l = m ∨ selectMinFrom m l ∈ l := by
  induction l with
  | nil => intro m; exact .inl rfl
  | cons j rest ih =>
    intro m
    simp only [selectMinFrom]
    by_cases h : jobOrderLE m j = true
    · rw [if_pos h]
      rcases ih m with h' | h'
      · exact .inl h'
      · exact .inr (List.mem_cons_of_mem _ h')
    · rw [if_neg h]
      rcases ih j with h' | h'
      · rw [h']
        exact .inr (List.mem_cons_self j rest)
      · exact .inr (List.mem_cons_of_mem _ h')

lemma selectMinFrom_le (l : List Job) : ∀ m : Job,
    jobOrderLE (selectMinFrom m l) m = true ∧
    ∀ x ∈ l, jobOrderLE (selectMinFrom m l) x = true := by
  induction l with
  | nil =>
    intro m
    refine ⟨jobOrderLE_refl m, ?_⟩
    intro x hx
    cases hx
  | cons j rest ih =>
    intro m
    simp only [selectMinFrom]
    by_cases h : jobOrderLE m j = true
    · rw [if_pos h]
      obtain ⟨h₁, h₂⟩ := ih m
      refine ⟨h₁, ?_⟩
      intro x hx
      rcases List.mem_cons.mp hx with rfl | hx
      · exact jobOrderLE_trans h₁ h
      · exact h₂ x hx
    · rw [if_neg h]
      obtain ⟨h₁, h₂⟩ := ih j
      have hjm : jobOrderLE j m = true := (jobOrderLE_total m j).resolve_left h
      refine ⟨jobOrderLE_trans h₁ hjm, ?_⟩
      intro x hx
      rcases List.mem_cons.mp hx with rfl | hx
      · exact h₁
      · exact h₂ x hx

lemma selectMin_mem_and_le (l : List Job) (j : Job)
    (h : selectMin l = some j) :
    j ∈ l ∧ ∀ x ∈ l, jobOrderLE j x = true := by
  cases l with
  | nil => cases h
  | cons a rest =>
    simp only [selectMin, Option.some.injEq] at h
    subst h
    constructor
    · rcases selectMinFrom_mem rest a with h' | h'
      · rw [h']
        exact List.mem_cons_self a rest
      · exact List.mem_cons_of_mem _ h'
    · intro x hx
      rcases List.mem_cons.mp hx with hxa | hx
      · rw [hxa]
        exact (selectMinFrom_le rest a).1
      · exact (selectMinFrom_le rest a).2 x hx

lemma selectMin_eq_none_iff (l : List Job) : selectMin l = none ↔ l = [] := by
  cases l <;> simp [selectMin]

lemma eligible_not_canceled {now : Nat} {j : Job}
    (h : eligible now j = true) : j.canceled = false := by
  simp only [eligible, Bool.and_eq_true, Bool.not_eq_true'] at h
  exact h.1.1.2

/-- C1: every claim request (`JobRunner._get_job`) returns only an
eligible job — no final result, not canceled, `delay_until` null or ≤
now, `error_delay_until` null or ≤ now — and among the eligible jobs one
that sorts first under `(priority, delay_until asc, error_delay_until
asc)`; it returns `none` exactly when no job is eligible; a canceled job
is never selected and a claim-and-execute step never adds a `JobResult`
to it. -/
theorem claim_C1 (env : Env) (now : Nat) (store : List Job) :
    (∀ j, getJob now store = some j →
      j ∈ store ∧ eligible now j = true ∧
      ∀ x ∈ store, eligible now x = true → jobOrderLE j x = true) ∧
    (getJob now store = none ↔ ∀ x ∈ store, eligible now x = false) ∧
    (∀ x ∈ store, x.canceled = true →
      getJob now store ≠ some x ∧
      ((store.map Job.id).Nodup →
        ∀ store', runnerStep env now store = .ok store' →
          ∃ x' ∈ store', x'.id = x.id ∧ x'.results = x.results)) := by
  refine ⟨?_, ?_, ?_⟩
  · intro j hj
    obtain ⟨hmem, hmin⟩ := selectMin_mem_and_le _ j hj
    rw [List.mem_filter] at hmem
    exact ⟨hmem.1, hmem.2,
      fun x hx he => hmin x (List.mem_filter.mpr ⟨hx, he⟩)⟩
  · unfold getJob
    rw [selectMin_eq_none_iff, List.filter_eq_nil_iff]
    constructor
    · intro h x hx
      simpa using h x hx
    · intro h x hx
      simp [h x hx]
  · intro x hx hc
    constructor
    · intro hg
      obtain ⟨hmem, _⟩ := selectMin_mem_and_le _ x hg
      rw [List.mem_filter] at hmem
      have hfalse := eligible_not_canceled hmem.2
      rw [hc] at hfalse
      cases hfalse
    · intro hnodup store' hstep
      cases hg : getJob now store with
      | none =>
        simp only [runnerStep, hg, Except.ok.injEq] at hstep
        exact ⟨x, hstep ▸ hx, rfl, rfl⟩
      | some j =>
        obtain ⟨hjmem, _⟩ := selectMin_mem_and_le _ j hg
        rw [List.mem_filter] at hjmem
        have hjc : j.canceled = false := eligible_not_canceled hjmem.2
        have hne : x ≠ j := by
          intro h
          rw [h, hjc] at hc
          cases hc
        have hid : x.id ≠ j.id := fun h =>
          hne (List.inj_on_of_nodup_map hnodup hx hjmem.1 h)
        cases hex : Job.execute env now j with
        | error e =>
          simp [runnerStep, hg, hex] at hstep
        | ok j' =>
          simp only [runnerStep, hg, hex, Except.ok.injEq] at hstep
          refine ⟨x, ?_, rfl, rfl⟩
          rw [← hstep]
          have hfix : (fun y => if y.id == j.id then j' else y) x = x := by
            simp [hid]
          exact hfix ▸ List.mem_map_of_mem _ hx

/-- Witness for C1: on a concrete two-job store the claim query returns
the eligible job, and the canceled job keeps its (empty) result set
across a claim-and-execute step. -/
theorem claim_C1_witness :
    (jobE ∈ storeW ∧ eligible 10 jobE = true) ∧
    (∃ store', runnerStep envBoom 10 storeW = .ok store' ∧
      ∃ x' ∈ store', x'.id = jobC.id ∧ x'.results = jobC.results) := by
  obtain ⟨h1, _, h3⟩ := claim_C1 envBoom 10 storeW
  constructor
  · have h := h1 jobE rfl
    exact ⟨h.1, h.2.1⟩
  · exact ⟨_, rfl,
      (h3 jobC (List.mem_cons_self _ _) rfl).2 (by decide) _ rfl⟩

/-! Behaviour of `Job.execute` on each of its four paths. -/

lemma execute_missing {env : Env} {j : Job} {now : Nat} {msg : String}
    (henv : env j.func_name = .notFound msg) :
    j.execute env now = .error msg := by
  simp only [Job.execute, path_to_function, henv]

lemma execute_uncallable {env : Env} {j : Job} {now : Nat} {msg : String}
    (henv : env j.func_name = .uncallable msg) :
    j.execute env now = .ok { j with
      finished := true,
      results := j.results ++ [{
        success := false, started_at := now, finished_at := now,
        exception := msg, traceback := "", result := none,
        permanent := true }] } := by
  simp only [Job.execute, path_to_function, henv]

lemma execute_success {env : Env} {h : Handler} {j : Job} (now : Nat)
    {val : Value} (henv : env j.func_name = .found h)
    (hok : h j.get_args j.get_kwargs = .ok val) :
    j.execute env now = .ok { j with
      finished := true,
      results := j.results ++ [{
        success := true, started_at := now, finished_at := now,
        exception := "", traceback := "", result := some val,
        permanent := true }] } := by
  simp only [Job.execute, path_to_function, henv, hok]

lemma execute_fail {env : Env} {h : Handler} {j : Job} (now : Nat)
    {msg tb : String} (henv : env j.func_name = .found h)
    (hfail : h j.get_args j.get_kwargs = .error (msg, tb)) :
    j.execute env now = .ok { j with
      error_delay_until := some
        (now + j.base_retry_delay * j.retry_multiplier * j.results.length),
      results := j.results ++ [{
        success := false, started_at := now, finished_at := now,
        exception := msg, traceback := tb, result := none,
        permanent := j.results.length ≥ j.max_retries }] } := by
  simp only [Job.execute, path_to_function, henv, hfail]

/-- C2 (code bug): with `max_retries = 0` and a handler that raises on
every invocation, the first claim-and-execute step already writes the
permanent (final) `JobResult` row — at which point the claim demands
that repetition stops at `k + 1 = 1` rows — but `Job.execute` never sets
`final_result`, so the claim query's `final_result IS NULL` filter still
matches the job (`error_delay_until` is exactly `now`, back-off zero),
and the very next claim-and-execute step at the same instant appends a
second permanent row: the permanent flags read `[true, true]` after two
steps instead of the claimed single final row. -/
theorem claim_C2 :
    ((runnerStep envBoom 100 [baseJob]).map
      (List.map (fun j => j.results.map JobResult.permanent)) =
        .ok [[true]]) ∧
    (((runnerStep envBoom 100 [baseJob]).bind (runnerStep envBoom 100)).map
      (List.map (fun j => j.results.map JobResult.permanent)) =
        .ok [[true, true]]) :=
  ⟨rfl, rfl⟩

/-- Counterexample to C3: on the first failing attempt of `jobF`
(`base_retry_delay = 1`, `retry_multiplier = 2`, no prior results) at
time 100, the code sets `error_delay_until` to 100 (the schedule is
`base_retry_delay * retry_multiplier * prior_count = 0`), not to
`100 + back_off(1)` = `100 + retry_delay ^ 1` = 101 as the spec's
geometric formula demands. -/
theorem claim_C3_counterexample :
    (jobF.execute envBoom 100).toOption.map Job.error_delay_until =
      some (some 100) ∧
    (jobF.execute envBoom 100).toOption.map Job.error_delay_until ≠
      some (some (100 + specBackOff jobF.base_retry_delay 1)) :=
  ⟨rfl, by decide⟩

/-- C3 amended: on every failing attempt that does not exhaust the retry
ceiling, execute sets `error_delay_until` to
`now + base_retry_delay * retry_multiplier * n` where `n` is the number
of prior `JobResult` rows — a linear schedule in the prior attempt
count, not the spec's geometric `retry_delay ^ attempt_count`. -/
theorem claim_C3 (env : Env) (h : Handler) (j : Job) (now : Nat)
    (msg tb : String) (henv : env j.func_name = .found h)
    (hmsg : h j.get_args j.get_kwargs = .error (msg, tb))
    (hnt : j.results.length < j.max_retries) :
    ∃ j' r, j.execute env now = .ok j' ∧
      j'.error_delay_until = some
        (now + j.base_retry_delay * j.retry_multiplier * j.results.length) ∧
      j'.results = j.results ++ [r] ∧ r.permanent = false := by
  refine ⟨_, _, execute_fail now henv hmsg, rfl, rfl, ?_⟩
  simp only [ge_iff_le, decide_eq_false_iff_not]
  omega

/-- Witness for the amended C3 on the first failing attempt of `jobF`. -/
theorem claim_C3_witness :
    ∃ j' r, jobF.execute envBoom 100 = .ok j' ∧
      j'.error_delay_until = some (100 +
        jobF.base_retry_delay * jobF.retry_multiplier * jobF.results.length) ∧
      j'.results = jobF.results ++ [r] ∧ r.permanent = false :=
  claim_C3 envBoom failHandler jobF 100 "boom" "tb0" rfl rfl (by decide)

/-- Counterexample to C8: on a failing attempt that exhausts retries
(`max_retries = 0`, no prior results, so the new row is permanent), the
code still writes `error_delay_until` — it changes from `none` to
`some 100` — although the claim says the terminal attempt leaves it
unmodified. -/
theorem claim_C8_counterexample :
    (baseJob.execute envBoom 100).toOption.map
      (List.map JobResult.permanent ∘ Job.results) = some [true] ∧
    (baseJob.execute envBoom 100).toOption.map Job.error_delay_until =
      some (some 100) ∧
    some (some 100) ≠ some baseJob.error_delay_until :=
  ⟨rfl, rfl, by decide⟩

/-- C8 amended: on the failing attempt that exhausts retries
(`prior count ≥ max_retries`) the executor marks the new result
permanent (the final result) and still assigns `error_delay_until` with
the same formula as on non-terminal attempts. -/
theorem claim_C8 (env : Env) (h : Handler) (j : Job) (now : Nat)
    (msg tb : String) (henv : env j.func_name = .found h)
    (hmsg : h j.get_args j.get_kwargs = .error (msg, tb))
    (hterm : j.max_retries ≤ j.results.length) :
    ∃ j' r, j.execute env now = .ok j' ∧
      j'.results = j.results ++ [r] ∧
      r.permanent = true ∧ r.success = false ∧
      j'.error_delay_until = some
        (now + j.base_retry_delay * j.retry_multiplier * j.results.length) := by
  refine ⟨_, _, execute_fail now henv hmsg, rfl, ?_, rfl, rfl⟩
  simpa [ge_iff_le] using hterm

/-- Witness for the amended C8 on a terminal failing attempt
(`max_retries = 0`). -/
theorem claim_C8_witness :
    ∃ j' r, baseJob.execute envBoom 100 = .ok j' ∧
      j'.results = baseJob.results ++ [r] ∧
      r.permanent = true ∧ r.success = false ∧
      j'.error_delay_until = some (100 + baseJob.base_retry_delay *
        baseJob.retry_multiplier * baseJob.results.length) :=
  claim_C8 envBoom failHandler baseJob 100 "boom" "tb0" rfl rfl (by decide)

/-- C10: on the first failing attempt (no prior `JobResult` rows) of a
job with retries remaining, execute sets `error_delay_until` to exactly
`now` (the computed back-off is `base_retry_delay * retry_multiplier * 0
= 0`), so the job immediately satisfies the claim query's eligibility
filter again. -/
theorem claim_C10 (env : Env) (h : Handler) (j : Job) (now : Nat)
    (msg tb : String) (henv : env j.func_name = .found h)
    (hmsg : h j.get_args j.get_kwargs = .error (msg, tb))
    (hrows : j.results = []) (hretr : 0 < j.max_retries)
    (hcanc : j.canceled = false) (hfin : j.final_result = none)
    (hdel : j.delay_until = none) :
    ∃ j', j.execute env now = .ok j' ∧
      j'.error_delay_until = some now ∧ eligible now j' = true := by
  refine ⟨_, execute_fail now henv hmsg, ?_, ?_⟩
  · rw [hrows]
    simp
  · simp [eligible, hcanc, hfin, hdel, hrows]

/-- Witness for C10 on `jobF` (`max_retries = 5`, empty results) at time
100: the job becomes eligible again at once. -/
theorem claim_C10_witness :
    ∃ j', jobF.execute envBoom 100 = .ok j' ∧
      j'.error_delay_until = some 100 ∧ eligible 100 j' = true :=
  claim_C10 envBoom failHandler jobF 100 "boom" "tb0" rfl rfl rfl
    (by decide) rfl rfl rfl

/-- Counterexample to C4: executing a job whose `func_name =
"does.not.exist"` cannot be located (`ModuleNotFoundError` from
`importlib.import_module("does.not")`) does not record a failing
`JobResult` — only the `Uncallable` exception is caught by
`Job.execute`, so the lookup error propagates out of `execute` and no
row is written, contradicting the claimed "exactly one failing
JobResult" for unlocatable identifiers. -/
theorem claim_C4_counterexample :
    ({ baseJob with func_name := "does.not.exist", max_retries := 5 } :
        Job).execute envMissing 0 = .error "No module named 'does.not'" ∧
    (({ baseJob with func_name := "does.not.exist", max_retries := 5 } :
        Job).execute envMissing 0).isOk = false :=
  ⟨execute_missing rfl, rfl⟩

/-- C4 amended: when `func_name` locates an object that is not callable,
execute records exactly one failing `JobResult` (success false,
exception set, empty traceback), marks it permanent and the job
finished, and leaves `error_delay_until` unchanged (no retry is
scheduled, regardless of `max_retries`); when the identifier cannot be
located at all, the lookup exception propagates out of `execute`
uncaught and no `JobResult` is recorded. -/
theorem claim_C4 (env : Env) (j : Job) (now : Nat) (msg : String) :
    (env j.func_name = .uncallable msg →
      ∃ j' r, j.execute env now = .ok j' ∧
        j'.results = j.results ++ [r] ∧
        r.success = false ∧ r.exception = msg ∧ r.traceback = "" ∧
        r.permanent = true ∧ j'.finished = true ∧
        j'.error_delay_until = j.error_delay_until) ∧
    (env j.func_name = .notFound msg →
      j.execute env now = .error msg) := by
  constructor
  · intro henv
    exact ⟨_, _, execute_uncallable henv, rfl, rfl, rfl, rfl, rfl, rfl, rfl⟩
  · intro henv
    exact execute_missing henv

/-- Witness for the amended C4 on `jobF` (`max_retries = 5`): a
non-callable target yields one permanent failing row, an unlocatable
target raises. -/
theorem claim_C4_witness :
    (∃ j' r, jobF.execute envUncallable 0 = .ok j' ∧
      j'.results = jobF.results ++ [r] ∧
      r.success = false ∧
      r.exception = "Object of type 'int'' is not callable" ∧
      r.traceback = "" ∧
      r.permanent = true ∧ j'.finished = true ∧
      j'.error_delay_until = jobF.error_delay_until) ∧
    jobF.execute envMissing 0 = .error "No module named 'does.not'" :=
  ⟨(claim_C4 envUncallable jobF 0
      "Object of type 'int'' is not callable").1 rfl,
    (claim_C4 envMissing jobF 0 "No module named 'does.not'").2 rfl⟩

/-- Counterexample to C5: a concrete `simple_enqueue_job` call sends no
pub/sub message at all — `sent` is empty — although the claim says a
notification is emitted on the configured channel on success (no code in
the repository executes a NOTIFY). -/
theorem claim_C5_counterexample :
    (simple_enqueue_job [] 7 0
      ⟨"dbqueue.test_callables.test_func", echoHandler⟩
      [.int 1] [("a", .str "b")]).sent = [] := rfl

/-- C5 amended: every `simple_enqueue_job` call atomically appends one
new `Job` row carrying one `JobArg` row per positional argument
(position `i` for the `i`-th argument) and one `JobKWArg` row per
keyword argument, with all column defaults and no results, and returns
that job; no pub/sub notification is emitted by the operation. -/
theorem claim_C5 (store : List Job) (next_id now : Nat) (func : Callable)
    (args : List Value) (kwargs : List (String × Value)) :
    (simple_enqueue_job store next_id now func args kwargs).store =
      store ++ [(simple_enqueue_job store next_id now func args kwargs).job] ∧
    (simple_enqueue_job store next_id now func args kwargs).job.id = next_id ∧
    (simple_enqueue_job store next_id now func args kwargs).job.func_name =
      func.path ∧
    (simple_enqueue_job store next_id now func args kwargs).job.args.map
      Prod.fst = List.range args.length ∧
    (simple_enqueue_job store next_id now func args kwargs).job.args.map
      Prod.snd = args ∧
    (simple_enqueue_job store next_id now func args kwargs).job.kwargs =
      kwargs ∧
    (simple_enqueue_job store next_id now func args kwargs).job.results = [] ∧
    (simple_enqueue_job store next_id now func args kwargs).sent = [] :=
  ⟨rfl, rfl, rfl, List.enum_map_fst args, List.enum_map_snd args,
    rfl, rfl, rfl⟩

lemma sorted_enumFrom (l : List Value) : ∀ n : Nat,
    List.Sorted (fun a b : Nat × Value => a.1 ≤ b.1) (l.enumFrom n) := by
  induction l with
  | nil =>
    intro n
    simp [List.enumFrom]
  | cons x xs ih =>
    intro n
    rw [List.enumFrom, List.sorted_cons]
    refine ⟨?_, ih (n + 1)⟩
    intro p hp
    have hle := (List.mem_enumFrom hp).1
    exact Nat.le_of_succ_le hle

lemma get_args_of_enum (j : Job) (args : List Value)
    (h : j.args = args.enum) : j.get_args = args := by
  have hs : List.Sorted (fun a b : Nat × Value => a.1 ≤ b.1) args.enum :=
    sorted_enumFrom args 0
  unfold Job.get_args
  rw [h, List.Sorted.insertionSort_eq hs, List.enum_map_snd]

lemma foldl_dictInsert : ∀ (l m : List (String × Value)),
    (∀ p ∈ l, m.any (fun q => q.1 == p.1) = false) →
    (l.map Prod.fst).Nodup →
    l.foldl (fun m p => dictInsert m p.1 p.2) m = m ++ l := by
  intro l
  induction l with
  | nil =>
    intro m _ _
    simp
  | cons p rest ih =>
    intro m hfresh hnd
    simp only [List.map_cons, List.nodup_cons] at hnd
    simp only [List.foldl_cons]
    have h0 := hfresh p (List.mem_cons_self p rest)
    have hins : dictInsert m p.1 p.2 = m ++ [p] := by
      unfold dictInsert
      rw [if_neg (by simp [h0])]
    rw [hins, ih (m ++ [p]) ?_ hnd.2, List.append_assoc, List.singleton_append]
    intro q hq
    rw [List.any_append, hfresh q (List.mem_cons_of_mem _ hq)]
    simp only [Bool.false_or, List.any_cons, List.any_nil, Bool.or_false]
    have hq1 : q.1 ∈ rest.map Prod.fst := List.mem_map_of_mem _ hq
    have hne : p.1 ≠ q.1 := fun he => hnd.1 (he ▸ hq1)
    exact beq_eq_false_iff_ne.mpr hne

lemma get_kwargs_of_nodup (j : Job)
    (h : (j.kwargs.map Prod.fst).Nodup) : j.get_kwargs = j.kwargs := by
  unfold Job.get_kwargs
  rw [foldl_dictInsert j.kwargs [] (fun p _ => rfl) h, List.nil_append]

/-- C6: enqueuing an echo handler with any positional arguments and any
keyword map (with distinct names) and then executing the job stores a
result, retrievable via `get_result`, equal to the encoding of those
inputs — positional arguments in their original order and keyword
arguments under their original names. -/
theorem claim_C6 (env : Env) (store : List Job) (next_id now t : Nat)
    (h : Handler) (path : String) (args : List Value)
    (kwargs : List (String × Value))
    (hecho : ∀ a kw, h a kw =
      .ok (.obj [("args", .arr a), ("kwargs", .obj kw)]))
    (henv : env path = .found h)
    (hnd : (kwargs.map Prod.fst).Nodup) :
    ∃ j', ((simple_enqueue_job store next_id now ⟨path, h⟩ args
        kwargs).job).execute env t = .ok j' ∧
      j'.get_result = .ok (some
        (.obj [("args", .arr args), ("kwargs", .obj kwargs)])) := by
  have hargs : ((simple_enqueue_job store next_id now ⟨path, h⟩ args
      kwargs).job).get_args = args := get_args_of_enum _ args rfl
  have hkw : ((simple_enqueue_job store next_id now ⟨path, h⟩ args
      kwargs).job).get_kwargs = kwargs := get_kwargs_of_nodup _ hnd
  have hcall : h ((simple_enqueue_job store next_id now ⟨path, h⟩ args
      kwargs).job).get_args ((simple_enqueue_job store next_id now
        ⟨path, h⟩ args kwargs).job).get_kwargs =
      .ok (.obj [("args", .arr args), ("kwargs", .obj kwargs)]) := by
    rw [hargs, hkw]
    exact hecho args kwargs
  exact ⟨_, execute_success t henv hcall, rfl⟩

/-- Witness for C6, mirroring the repository's own test scenario
`echo(1, a="b", c="d")`. -/
theorem claim_C6_witness :
    ∃ j', ((simple_enqueue_job [] 0 0
        ⟨"dbqueue.test_callables.test_func", echoHandler⟩
        [.int 1] [("a", .str "b"), ("c", .str "d")]).job).execute
          envEcho 5 = .ok j' ∧
      j'.get_result = .ok (some (.obj [("args", .arr [.int 1]),
        ("kwargs", .obj [("a", .str "b"), ("c", .str "d")])])) :=
  claim_C6 envEcho [] 0 0 5 echoHandler "dbqueue.test_callables.test_func"
    [.int 1] [("a", .str "b"), ("c", .str "d")]
    (fun _ _ => rfl) rfl (by decide)

/-- C7: `get_result` is a trichotomy for any job whose results contain
at most one permanent row (the executor invariant): no permanent (final)
result signals `Unfinished`; a failing final result signals
`PermanentFailure` carrying its exception text — in particular the last
attempt's text when the final result is the last row — and a successful
final result returns the stored value. -/
theorem claim_C7 (j : Job)
    (hone : (j.results.filter (·.permanent)).length ≤ 1) :
    (j.results.filter (·.permanent) = [] ∨
      ∃ r, j.results.filter (·.permanent) = [r]) ∧
    (j.results.filter (·.permanent) = [] →
      j.get_result = .error .unfinished) ∧
    (∀ r, j.results.filter (·.permanent) = [r] →
      (r.success = false →
        j.get_result = .error (.permanentFailure r.exception)) ∧
      (r.success = true → j.get_result = .ok r.result)) ∧
    (∀ r, j.results.getLast? = some r → r.permanent = true →
      r.success = false →
      j.get_result = .error (.permanentFailure r.exception)) := by
  refine ⟨?_, ?_, ?_, ?_⟩
  · cases hf : j.results.filter (·.permanent) with
    | nil => exact .inl rfl
    | cons a rest =>
      cases rest with
      | nil => exact .inr ⟨a, rfl⟩
      | cons b r2 =>
        rw [hf] at hone
        simp at hone
  · intro hf
    unfold Job.get_result
    rw [hf]
  · intro r hf
    constructor
    · intro hs
      unfold Job.get_result
      rw [hf]
      simp [hs]
    · intro hs
      unfold Job.get_result
      rw [hf]
      simp [hs]
  · intro r hlast hperm hsucc
    have hmem : r ∈ j.results := List.mem_of_mem_getLast? hlast
    have hrf : r ∈ j.results.filter (·.permanent) :=
      List.mem_filter.mpr ⟨hmem, hperm⟩
    cases hf : j.results.filter (·.permanent) with
    | nil =>
      rw [hf] at hrf
      cases hrf
    | cons a rest =>
      cases rest with
      | cons b r2 =>
        rw [hf] at hone
        simp at hone
      | nil =>
        rw [hf] at hrf
        have hra : r = a := by simpa using hrf
        subst hra
        unfold Job.get_result
        rw [hf]
        simp [hsucc]

/-- Witness for C7: a job with no permanent result signals Unfinished; a
job whose last row is its unique permanent failing result signals
PermanentFailure with that row's exception text. -/
theorem claim_C7_witness :
    baseJob.get_result = .error .unfinished ∧
    jobP.get_result = .error (.permanentFailure resFail.exception) :=
  ⟨(claim_C7 baseJob (by decide)).2.1 rfl,
    (claim_C7 jobP (by decide)).2.2.2 resFail rfl rfl rfl⟩

/-- C9: the `run_queue` start-up validation fails exactly when
`job_runners < 1`, or when the database engine is not
notification-capable and `rescan_period` is zero; every other
combination passes. -/
theorem claim_C9 (job_runners rescan_period : Int) (engine : String) :
    runQueueValidate job_runners engine rescan_period = .ok () ↔
    (1 ≤ job_runners ∧
      (engine ∈ NOTIFY_ENGINES ∨ rescan_period ≠ 0)) := by
  unfold runQueueValidate
  split
  · next h1 =>
    constructor
    · intro hok
      cases hok
    · intro hp
      omega
  · next h1 =>
    dsimp only
    split
    · next h2 =>
      simp only [Bool.and_eq_true, Bool.not_eq_true', beq_iff_eq,
        decide_eq_false_iff_not] at h2
      constructor
      · intro hok
        cases hok
      · intro hp
        exact absurd (hp.2.resolve_left h2.1) (fun hr => hr h2.2)
    · next h2 =>
      simp only [Bool.and_eq_true, Bool.not_eq_true', beq_iff_eq,
        decide_eq_false_iff_not, not_and_or] at h2
      constructor
      · intro _
        refine ⟨by omega, ?_⟩
        rcases h2 with h2 | h2
        · exact .inl (by simpa using h2)
        · exact .inr h2
      · intro _
        rfl

end DBQueue
